import Mathlib

/-!
Shallow embedding of `src/bumps/webview/server/fit_thread.py`: the
fit-execution worker thread, its monitor chain (GUIProgressMonitor,
ConvergenceMonitor, DreamMonitor) and the event bridge
(`send_progress` / `send_complete`).

Modelling conventions:
* Machine floats used for objective values, points and trajectory times are
  modelled as rationals (`ℚ`).
* NumPy arrays and other reference-typed payloads are modelled as `Obj`, a
  buffer identity (`ref`) paired with its contents (`data`); operations that
  allocate a fresh buffer (`deepcopy`, `array + 0`) thread an allocation
  counter and stamp the result with a fresh `ref`.
* Python dicts used as events are association lists from string keys to
  payload values, in insertion order.
* A Python exception that the code does not catch is modelled with `Except`
  (for `ConvergenceMonitor.__call__`, whose `except AttributeError` does not
  cover the `IndexError` of indexing an empty population) or with an
  explicit error outcome of the run.
-/

/-- A reference-typed value (NumPy array, problem object, uncertainty state):
buffer identity `ref` plus contents `data`. Two `Obj`s with equal `data` but
different `ref` model distinct buffers holding the same values. -/
structure Obj where
  ref : Nat
  data : List ℚ
deriving DecidableEq

/-- Embeds `copy.deepcopy`: a fresh buffer with the same contents. The second
argument is the allocation counter; the returned counter is incremented. -/
def deepcopy (o : Obj) (alloc : Nat) : Obj × Nat :=
  (⟨alloc, o.data⟩, alloc + 1)

/-- Embeds `history.point[0] + 0` — NumPy array plus scalar zero: allocates a fresh
array with the same values (the "avoid race" defensive copy in the source). -/
def addZeroCopy (o : Obj) (alloc : Nat) : Obj × Nat :=
  (⟨alloc, o.data⟩, alloc + 1)

/-- A 2-d double array as produced by `np.empty((0,1),'d')` / `np.array(pop)`:
row list plus column count (NumPy shape is `(rows.length, cols)`). -/
structure NDArr where
  rows : List (List ℚ)
  cols : Nat
deriving DecidableEq

/-- NumPy shape of the array. -/
def NDArr.shape (a : NDArr) : Nat × Nat := (a.rows.length, a.cols)

/-- Values that appear in event dicts. -/
inductive PVal where
  | s (v : String)
  | n (v : Nat)
  | q (v : ℚ)
  | o (v : Obj)
  | a (v : NDArr)
  | xs (v : List ℚ)
deriving DecidableEq

/-- An event dict: key/value pairs in insertion order. -/
abbrev Event := List (String × PVal)

/-- The keys of an event dict. -/
def eventKeys (e : Event) : List String := e.map Prod.fst

/-- One primitive action on the event bridge: enqueue on one of the two
asyncio queues (`put_nowait`), or wake that queue's event loop
(`_loop._write_to_self()`). -/
inductive BridgeOp where
  | enqProgress (e : Event)
  | wakeProgress
  | enqComplete (e : Event)
  | wakeComplete
deriving DecidableEq

/-- Embeds `send_progress(event)`: `FIT_PROGRESS_QUEUE.put_nowait(event)` followed by
`FIT_PROGRESS_QUEUE._loop._write_to_self()`. -/
def send_progress (e : Event) : List BridgeOp :=
  [BridgeOp.enqProgress e, BridgeOp.wakeProgress]

/-- Embeds `send_complete(event)`: `FIT_COMPLETE_QUEUE.put_nowait(event)` followed by
`FIT_COMPLETE_QUEUE._loop._write_to_self()`. -/
def send_complete (e : Event) : List BridgeOp :=
  [BridgeOp.enqComplete e, BridgeOp.wakeComplete]

/-- The slice of `bumps.history.History` read by these monitors: depth-1
access to `step[0]`, `value[0]`, `point[0]`, `population_values[0]`,
`time[0]`, and the optional `uncertainty_state` attribute. `none` in
`population_values` models the missing attribute (`AttributeError` on
access); `none` in `uncertainty_state` models `getattr(..., None)`
returning `None`. -/
structure History where
  step : Nat
  value : ℚ
  point : Obj
  population_values : Option (List ℚ)
  time : ℚ
  uncertainty_state : Option Obj
deriving DecidableEq

/-!  ## ConvergenceMonitor  -/

/-- State of `ConvergenceMonitor`: the accumulated quantile tuples `pop`
(each tuple as a list of rationals), the last-emission time gate, the rate,
and the constructor arguments. -/
structure ConvergenceMonitor where
  time : ℚ
  rate : ℚ
  problem : Obj
  message : String
  pop : List (List ℚ)
deriving DecidableEq

/-- Embeds `ConvergenceMonitor.__init__(problem, message, rate)`. -/
def mkConvergenceMonitor (problem : Obj) (message : String) (rate : ℚ) :
    ConvergenceMonitor :=
  ⟨0, rate, problem, message, []⟩

/-- Embeds `np.empty((0,1),'d') if not self.pop else np.array(self.pop)`. -/
def ConvergenceMonitor.progress (pop : List (List ℚ)) : NDArr :=
  if pop.isEmpty then ⟨[], 1⟩ else ⟨pop, (pop.headD []).length⟩

/-- The event dict built both in the rate-gated branch of
`ConvergenceMonitor.__call__` and in `ConvergenceMonitor.final`. -/
def ConvergenceMonitor.evt (m : ConvergenceMonitor) : Event :=
  [("problem", PVal.o m.problem), ("message", PVal.s m.message),
   ("pop", PVal.a (ConvergenceMonitor.progress m.pop))]

/-- Embeds `ConvergenceMonitor.__call__(history)`.

`QI, Qmid = int(0.2*n), int(0.5*n)` is modelled as `n / 5`, `n / 2` (natural
floor division): for the machine-integer population sizes involved the float
products `0.2*n`, `0.5*n` truncate to exactly these floors.  `np.sort` is
modelled as an ascending sort (`List.insertionSort`).  Indexing the sorted
array of an empty population (`p[0]` with `n = 0`) raises `IndexError`,
which the surrounding `except AttributeError` does not catch: that is the
`Except.error` case.  The tuple is appended to `self.pop` first; then the
rate gate `self.rate > 0 and history.time[0] >= self.time + self.rate`
decides whether to emit the accumulated sequence. -/
def ConvergenceMonitor.call (m : ConvergenceMonitor) (h : History) :
    Except String (ConvergenceMonitor × List BridgeOp) := do
  let best := h.value
  let m1 ← match h.population_values with
    | some pop =>
        if pop = [] then
          Except.error "IndexError"
        else
          let n := pop.length
          let p := pop.insertionSort (· ≤ ·)
          let QI := n / 5
          let Qmid := n / 2
          Except.ok { m with pop := m.pop ++
            [[best, p.getD 0 0, p.getD QI 0, p.getD Qmid 0,
              p.getD (n - 1 - QI) 0, p.getD (n - 1) 0]] }
    | none =>
        Except.ok { m with pop := m.pop ++ [[best]] }
  if 0 < m1.rate ∧ m1.time + m1.rate ≤ h.time then
    Except.ok ({ m1 with time := h.time }, send_progress m1.evt)
  else
    Except.ok (m1, [])

/-- Embeds `ConvergenceMonitor.final()`: unconditionally emit the accumulated
sequence. -/
def ConvergenceMonitor.final (m : ConvergenceMonitor) : List BridgeOp :=
  send_progress m.evt

/-!  ## GUIProgressMonitor  -/

/-- Python `x or default` for the optional rate arguments of
`GUIProgressMonitor.__init__`: `None` and `0` both fall back to the
default delay. -/
def orDelay (x : Option ℚ) (d : ℚ) : ℚ :=
  match x with
  | none => d
  | some v => if v = 0 then d else v

/-- Embeds `PROGRESS_DELAY`. -/
def PROGRESS_DELAY : ℚ := 5

/-- Embeds `IMPROVEMENT_DELAY`. -/
def IMPROVEMENT_DELAY : ℚ := 5

/-- State of `GUIProgressMonitor`.  The fields `progressRate`,
`improvementRate`, `lastProgress` and `best` belong to the base class
`bumps.monitor.TimedUpdate`, which is not under `src/`; they are modelled
from the spec (progress reporter rate-gated on elapsed time, improvement
reporter firing on every new best value). -/
structure GUIProgressMonitor where
  problem : Obj
  progressRate : ℚ
  improvementRate : ℚ
  lastProgress : ℚ
  best : Option ℚ
deriving DecidableEq

/-- Embeds `GUIProgressMonitor.__init__(problem, progress, improvement)`. -/
def mkGUIProgressMonitor (problem : Obj) (progress improvement : Option ℚ) :
    GUIProgressMonitor :=
  ⟨problem, orDelay progress PROGRESS_DELAY, orDelay improvement IMPROVEMENT_DELAY, 0, none⟩

/-- Modelled from the spec: `nllf_scale` lives in `bumps.fitters`, which is
not under `src/`; the spec does not constrain it beyond producing the inputs
of a "formatted-uncertainty string", so a fixed scale is used. -/
def nllf_scale (_problem : Obj) : ℚ × ℚ := (1, 0)

/-- Modelled from the spec: `format_uncertainty` lives in `bumps.fitters`,
which is not under `src/`; the spec calls its output only a
"formatted-uncertainty string", so a fixed computable rendering is used. -/
def format_uncertainty (v err : ℚ) : String :=
  toString v ++ "(" ++ toString err ++ ")"

/-- Embeds `GUIProgressMonitor.show_progress(history)`: build the `progress` event
dict (no `problem` key — it is commented out in the source) with a defensive
copy of the current point, and publish it. -/
def GUIProgressMonitor.show_progress (m : GUIProgressMonitor) (h : History)
    (alloc : Nat) : List BridgeOp × Nat :=
  let (scale, err) := nllf_scale m.problem
  let chisq := format_uncertainty (scale * h.value) err
  let (pt, alloc1) := addZeroCopy h.point alloc
  (send_progress
    [("message", PVal.s "progress"), ("step", PVal.n h.step),
     ("value", PVal.q h.value), ("chisq", PVal.s chisq),
     ("point", PVal.o pt)], alloc1)

/-- Embeds `GUIProgressMonitor.show_improvement(history)`: build the `improvement`
event dict (which does carry the `problem` key) with a defensive copy of the
current point, and publish it. -/
def GUIProgressMonitor.show_improvement (m : GUIProgressMonitor) (h : History)
    (alloc : Nat) : List BridgeOp × Nat :=
  let (pt, alloc1) := addZeroCopy h.point alloc
  (send_progress
    [("problem", PVal.o m.problem), ("message", PVal.s "improvement"),
     ("step", PVal.n h.step), ("value", PVal.q h.value),
     ("point", PVal.o pt)], alloc1)

/-- Modelled from the spec: `TimedUpdate.__call__` (in `bumps.monitor`, not
under `src/`) dispatches to `show_improvement` whenever a new best value is
observed — immediate, regardless of time gate — and to `show_progress` when
the elapsed trajectory time since the last progress emission reaches the
progress rate. -/
def GUIProgressMonitor.call (m : GUIProgressMonitor) (h : History)
    (alloc : Nat) : GUIProgressMonitor × List BridgeOp × Nat :=
  let improved := match m.best with
    | none => true
    | some b => h.value < b
  let (opsI, alloc1) :=
    if improved then m.show_improvement h alloc else ([], alloc)
  let fireP := m.lastProgress + m.progressRate ≤ h.time
  let (opsP, alloc2) :=
    if fireP then m.show_progress h alloc1 else ([], alloc1)
  ({ m with best := if improved then some h.value else m.best,
            lastProgress := if fireP then h.time else m.lastProgress },
   opsI ++ opsP, alloc2)

/-!  ## DreamMonitor  -/

/-- State of `DreamMonitor`. -/
structure DreamMonitor where
  time : ℚ
  rate : ℚ
  problem : Obj
  fitter : String
  message : String
  uncertainty_state : Option Obj
deriving DecidableEq

/-- Embeds `DreamMonitor.__init__(problem, message, fitter, rate)`. -/
def mkDreamMonitor (problem : Obj) (message : String) (fitter : String)
    (rate : ℚ) : DreamMonitor :=
  ⟨0, rate, problem, fitter, message, none⟩

/-- Embeds `DreamMonitor.__call__(history)`: overwrite the stored state with
`getattr(history, 'uncertainty_state', None)`; then, if the rate gate fires
and the stored state is not `None`, emit `uncertainty_update` with a deep
copy of it. -/
def DreamMonitor.call (d : DreamMonitor) (h : History) (alloc : Nat) :
    DreamMonitor × List BridgeOp × Nat :=
  let d1 := { d with uncertainty_state := h.uncertainty_state }
  match d1.uncertainty_state with
  | some u =>
      if 0 < d1.rate ∧ d1.time + d1.rate ≤ h.time then
        let (copy, alloc1) := deepcopy u alloc
        ({ d1 with time := h.time },
         send_progress
           [("problem", PVal.o d1.problem),
            ("message", PVal.s "uncertainty_update"),
            ("uncertainty_state", PVal.o copy)], alloc1)
      else (d1, [], alloc)
  | none => (d1, [], alloc)

/-- Embeds `DreamMonitor.final()`: emit `uncertainty_final` with a deep copy of the
stored state, if the stored state is not `None`; otherwise emit nothing. -/
def DreamMonitor.final (d : DreamMonitor) (alloc : Nat) :
    List BridgeOp × Nat :=
  match d.uncertainty_state with
  | some u =>
      let (copy, alloc1) := deepcopy u alloc
      (send_progress
        [("problem", PVal.o d.problem),
         ("message", PVal.s "uncertainty_final"),
         ("uncertainty_state", PVal.o copy)], alloc1)
  | none => ([], alloc)

/-!  ## FitThread  -/

/-- The fields of `FitThread` the claims depend on.  `abort_queue`,
`options`, `mapper` and `terminate_on_finish` are handles to external
collaborators and do not appear in any published event; `fitclass` is kept
as an opaque tag because it is forwarded to `DreamMonitor`. -/
structure FitThread where
  problem : Obj
  fitclass : String
  convergence_update : ℚ
  uncertainty_update : ℚ
deriving DecidableEq

/-- Modelled from the spec: the external algorithm driver
(`FitDriver.fit()` in `bumps.fitters`, not under `src/`) calls the monitor
chain once per optimization iteration and then either returns
`(bestPoint, bestValue)` or raises.  A run of the driver is therefore a
list of per-iteration history snapshots followed by an outcome; an aborted
run is a `finishes` outcome after fewer iterations.  `report` is the text
captured from `driver.show()` under `redirect_console`. -/
inductive FitOutcome where
  | finishes (x : List ℚ) (fx : ℚ) (report : String)
  | raises (err : String)
deriving DecidableEq

/-- Intermediate state of the optimization loop: the three monitors of the
chain, the allocation counter, and the bridge operations performed so far. -/
structure LoopState where
  gui : GUIProgressMonitor
  conv : ConvergenceMonitor
  dream : DreamMonitor
  alloc : Nat
  ops : List BridgeOp
deriving DecidableEq

/-- One iteration of the optimization loop: the driver invokes the monitor
chain in declaration order (`GUIProgressMonitor`, `ConvergenceMonitor`,
`DreamMonitor`).  An uncaught exception inside a monitor (the `IndexError`
case of `ConvergenceMonitor.__call__`) stops the loop. -/
def runLoop (st : LoopState) : List History → LoopState × Option String
  | [] => (st, none)
  | h :: rest =>
      let (gui1, opsG, alloc1) := st.gui.call h st.alloc
      match st.conv.call h with
      | Except.error msg =>
          ({ st with gui := gui1, alloc := alloc1, ops := st.ops ++ opsG },
           some msg)
      | Except.ok (conv1, opsC) =>
          let (dream1, opsD, alloc2) := st.dream.call h alloc1
          runLoop
            { gui := gui1, conv := conv1, dream := dream1, alloc := alloc2,
              ops := st.ops ++ opsG ++ opsC ++ opsD } rest

/-- Result of one `FitThread.run`: the bridge operations performed, the list
of monitors whose `final()` ran (in order), the problem object handed to the
algorithm driver, the uncaught exception if any, and `self.result`. -/
structure RunResult where
  ops : List BridgeOp
  finalized : List String
  driverProblem : Obj
  error : Option String
  result : Option Event
deriving DecidableEq

/-- The event enqueued on the completion queue by one bridge operation,
if any. -/
def completePart : BridgeOp → Option Event
  | BridgeOp.enqComplete e => some e
  | _ => none

/-- The event enqueued on the progress queue by one bridge operation,
if any. -/
def progressPart : BridgeOp → Option Event
  | BridgeOp.enqProgress e => some e
  | _ => none

/-- The events enqueued on the completion queue during a run. -/
def RunResult.completeEvents (r : RunResult) : List Event :=
  r.ops.filterMap completePart

/-- The events enqueued on the progress queue during a run. -/
def RunResult.progressEvents (r : RunResult) : List Event :=
  r.ops.filterMap progressPart

/-- The events in `evs` whose `message` key carries the given tag. -/
def eventsWithMessage (msg : String) (evs : List Event) : List Event :=
  evs.filter fun e => e.lookup "message" == some (PVal.s msg)

/-- Embeds `FitThread.run()`: build the monitor chain on the *original* problem,
hand a `deepcopy` of the problem to the algorithm driver, run the driver
(`steps`/`outcome`), then — only if the driver returned — call `final()` on
every monitor in chain order (the `hasattr(M, 'final')` guard holds for all
three: the `TimedUpdate` base is modelled from the spec finalize contract
with a `final` that emits nothing) and publish the `complete` event, which
carries the original problem, the best point `x`, the best value `fx` and
the captured report.  There is no `try`/`except` around the driver call: an
exception propagates out of `run`, skipping finalization and the `complete`
event. -/
def FitThread.run (t : FitThread) (steps : List History)
    (outcome : FitOutcome) (alloc : Nat) : RunResult :=
  let gui := mkGUIProgressMonitor t.problem none none
  let conv := mkConvergenceMonitor t.problem "convergence_update" t.convergence_update
  let dream := mkDreamMonitor t.problem "uncertainty_update" t.fitclass t.uncertainty_update
  let (problem, alloc1) := deepcopy t.problem alloc
  let (st, err) := runLoop ⟨gui, conv, dream, alloc1, []⟩ steps
  match err with
  | some e =>
      ⟨st.ops, [], problem, some e, none⟩
  | none =>
      match outcome with
      | FitOutcome.raises e =>
          ⟨st.ops, [], problem, some e, none⟩
      | FitOutcome.finishes x fx report =>
          let opsC := st.conv.final
          let (opsD, _) := st.dream.final st.alloc
          let evt : Event :=
            [("message", PVal.s "complete"), ("problem", PVal.o t.problem),
             ("point", PVal.xs x), ("value", PVal.q fx),
             ("info", PVal.s report)]
          ⟨st.ops ++ opsC ++ opsD ++ send_complete evt,
           ["GUIProgressMonitor", "ConvergenceMonitor", "DreamMonitor"],
           problem, none, some evt⟩

/-!  ## Bridge-trace predicates and emission times  -/

/-- Every enqueue on a queue is immediately followed by the wake of that
queue's event loop: the publication discipline of `send_progress` and
`send_complete`. -/
def wakesFollowEnqueues : List BridgeOp → Prop
  | [] => True
  | BridgeOp.enqProgress _ :: rest =>
      rest.head? = some BridgeOp.wakeProgress ∧ wakesFollowEnqueues rest
  | BridgeOp.enqComplete _ :: rest =>
      rest.head? = some BridgeOp.wakeComplete ∧ wakesFollowEnqueues rest
  | _ :: rest => wakesFollowEnqueues rest

/-- An operation list that is a concatenation of whole `send_progress`
publications. -/
inductive ProgressOps : List BridgeOp → Prop where
  | nil : ProgressOps []
  | send (e : Event) (rest : List BridgeOp) :
      ProgressOps rest → ProgressOps (send_progress e ++ rest)

/-- An operation list that is a concatenation of whole `send_progress` /
`send_complete` publications. -/
inductive SendChunks : List BridgeOp → Prop where
  | nil : SendChunks []
  | progress (e : Event) (rest : List BridgeOp) :
      SendChunks rest → SendChunks (send_progress e ++ rest)
  | complete (e : Event) (rest : List BridgeOp) :
      SendChunks rest → SendChunks (send_complete e ++ rest)

/-- The trajectory times (`history.time[0]`) at which a `ConvergenceMonitor`
emits, along a trace of observed histories. -/
def convEmitTimes (m : ConvergenceMonitor) : List History → List ℚ
  | [] => []
  | h :: rest =>
      match m.call h with
      | Except.error _ => []
      | Except.ok (m', ops) =>
          (if ops = [] then [] else [h.time]) ++ convEmitTimes m' rest

/-- The trajectory times (`history.time[0]`) at which a `DreamMonitor`
emits, along a trace of observed histories. -/
def dreamEmitTimes (d : DreamMonitor) (alloc : Nat) : List History → List ℚ
  | [] => []
  | h :: rest =>
      let (d', ops, alloc') := d.call h alloc
      (if ops = [] then [] else [h.time]) ++ dreamEmitTimes d' alloc' rest

/-!  ## Concrete inputs used by the per-claim witnesses and counterexamples -/

/-- A fit thread whose driver raises: used for the missing-exception-handling
evaluation (C1). -/
def fitT1 : FitThread := ⟨⟨0, [1, 2]⟩, "amoeba", 5, 300⟩

/-- One healthy iteration observed before the driver raises. -/
def histC1 : History := ⟨1, 9, ⟨1, [1, 2]⟩, some [9, 8], 0, none⟩

/-- The example monitor state for the quantile computation (C2). -/
def convC2 : ConvergenceMonitor := mkConvergenceMonitor ⟨0, []⟩ "convergence_update" 0

/-- The example history with population `[5,3,9,1,7]` and best value 42. -/
def histC2 : History := ⟨1, 42, ⟨1, []⟩, some [5, 3, 9, 1, 7], 0, none⟩

/-- Fit thread for the isolation example (C3). -/
def fitT3 : FitThread := ⟨⟨0, [3, 4]⟩, "amoeba", 5, 300⟩

/-- The run of `fitT3` with no iterations, finishing at point `[1]`. -/
def runC3 : RunResult := fitT3.run [] (FitOutcome.finishes [1] 2 "done") 1

/-- The complete event published by `runC3`. -/
def evtC3 : Event :=
  [("message", PVal.s "complete"), ("problem", PVal.o fitT3.problem),
   ("point", PVal.xs [1]), ("value", PVal.q 2), ("info", PVal.s "done")]

/-- Monitor state with one tuple already accumulated and rate 1 (C4). -/
def convC4 : ConvergenceMonitor := ⟨0, 1, ⟨0, []⟩, "convergence_update", [[7]]⟩

/-- History observed at time 10, firing the rate gate of `convC4`. -/
def histC4 : History := ⟨2, 42, ⟨1, []⟩, some [5, 3, 9, 1, 7], 10, none⟩

/-- The state of `convC4` after observing `histC4`. -/
def convC4' : ConvergenceMonitor :=
  ⟨10, 1, ⟨0, []⟩, "convergence_update", [[7], [42, 1, 3, 5, 7, 9]]⟩

/-- Dream monitor with rate 0 (final-only), as constructed by
`FitThread.run` with `uncertainty_update=0` (C5). -/
def dreamC5 : DreamMonitor := mkDreamMonitor ⟨0, []⟩ "uncertainty_update" "dream" 0

/-- A history carrying uncertainty state. -/
def histC5a : History := ⟨1, 5, ⟨1, []⟩, none, 0, some ⟨2, [3]⟩⟩

/-- A later history from which the `uncertainty_state` attribute is absent. -/
def histC5b : History := ⟨2, 4, ⟨1, []⟩, none, 1, none⟩

/-- A dream monitor holding captured uncertainty state, for the amended-claim
witness (C5). -/
def dreamC5w : DreamMonitor := ⟨0, 0, ⟨0, []⟩, "dream", "uncertainty_update", some ⟨2, [3]⟩⟩

/-- Convergence monitor with rate 1 for the cadence witness (C6). -/
def convC6 : ConvergenceMonitor := mkConvergenceMonitor ⟨0, []⟩ "convergence_update" 1

/-- Dream monitor with rate 1 for the cadence witness (C6). -/
def dreamC6 : DreamMonitor := mkDreamMonitor ⟨0, []⟩ "uncertainty_update" "dream" 1

/-- A trace of three observations at times 0, 1/2, 1: only two can fire a
rate-1 gate. -/
def traceC6 : List History :=
  [⟨1, 9, ⟨1, []⟩, some [9, 8], 1, some ⟨2, [1]⟩⟩,
   ⟨2, 8, ⟨1, []⟩, some [8, 7], 3/2, some ⟨2, [1]⟩⟩,
   ⟨3, 7, ⟨1, []⟩, some [7, 6], 2, some ⟨2, [1]⟩⟩]

/-- The 5-iteration deterministic scenario with convergence cadence 0 (C7). -/
def fitT7 : FitThread := ⟨⟨0, [1]⟩, "amoeba", 0, 300⟩

/-- Five iterations of a deterministic toy algorithm, steps 1..5. -/
def stepsC7 : List History :=
  [⟨1, 10, ⟨1, [1]⟩, some [10, 11, 12], 0, none⟩,
   ⟨2, 9, ⟨1, [1]⟩, some [9, 11, 12], 1, none⟩,
   ⟨3, 8, ⟨1, [1]⟩, some [8, 11, 12], 2, none⟩,
   ⟨4, 7, ⟨1, [1]⟩, some [7, 11, 12], 3, none⟩,
   ⟨5, 6, ⟨1, [1]⟩, some [6, 11, 12], 4, none⟩]

/-- The completed run of the C7 scenario. -/
def runC7 : RunResult := fitT7.run stepsC7 (FitOutcome.finishes [1] 6 "report") 100

/-- The optimization loop of the C7 scenario alone (the loop state starts
with allocation counter 101, as inside `fitT7.run _ _ 100` after the
problem `deepcopy`). -/
def loopC7 : LoopState × Option String :=
  runLoop ⟨mkGUIProgressMonitor ⟨0, [1]⟩ none none,
           mkConvergenceMonitor ⟨0, [1]⟩ "convergence_update" 0,
           mkDreamMonitor ⟨0, [1]⟩ "uncertainty_update" "amoeba" 300,
           101, []⟩ stepsC7

/-- GUI monitor used for the improvement-event example (C9). -/
def guiC9 : GUIProgressMonitor := mkGUIProgressMonitor ⟨0, [9]⟩ none none

/-- History observed by `guiC9`. -/
def histC9 : History := ⟨3, 7, ⟨5, [1, 2]⟩, none, 0, none⟩

/-- The improvement event `guiC9.show_improvement histC9 10` publishes. -/
def evtC9 : Event :=
  [("problem", PVal.o ⟨0, [9]⟩), ("message", PVal.s "improvement"),
   ("step", PVal.n 3), ("value", PVal.q 7), ("point", PVal.o ⟨10, [1, 2]⟩)]

/-- Convergence monitor state with two accumulated tuples (C10 witness). -/
def convC10 : ConvergenceMonitor := ⟨0, 5, ⟨0, []⟩, "convergence_update", [[7], [6]]⟩

/-!  ## Structural lemmas on bridge traces  -/

theorem progressOps_append {a b : List BridgeOp} (ha : ProgressOps a)
    (hb : ProgressOps b) : ProgressOps (a ++ b) := by
  induction ha with
  | nil => simpa using hb
  | send e rest _ ih =>
      rw [List.append_assoc]
      exact ProgressOps.send e _ ih

theorem sendChunks_append {a b : List BridgeOp} (ha : SendChunks a)
    (hb : SendChunks b) : SendChunks (a ++ b) := by
  induction ha with
  | nil => simpa using hb
  | progress e rest _ ih =>
      rw [List.append_assoc]
      exact SendChunks.progress e _ ih
  | complete e rest _ ih =>
      rw [List.append_assoc]
      exact SendChunks.complete e _ ih

theorem ProgressOps.sendChunks {a : List BridgeOp} (ha : ProgressOps a) :
    SendChunks a := by
  induction ha with
  | nil => exact SendChunks.nil
  | send e rest _ ih => exact SendChunks.progress e _ ih

theorem progressOps_send (e : Event) : ProgressOps (send_progress e) := by
  simpa using ProgressOps.send e [] ProgressOps.nil

theorem sendChunks_send_complete (e : Event) : SendChunks (send_complete e) := by
  simpa using SendChunks.complete e [] SendChunks.nil

theorem wakesFollowEnqueues_of_sendChunks {l : List BridgeOp}
    (h : SendChunks l) : wakesFollowEnqueues l := by
  induction h with
  | nil => trivial
  | progress e rest _ ih => exact ⟨rfl, ih⟩
  | complete e rest _ ih => exact ⟨rfl, ih⟩

theorem filterMap_completePart_of_progressOps {l : List BridgeOp}
    (h : ProgressOps l) : l.filterMap completePart = [] := by
  induction h with
  | nil => rfl
  | send e rest _ ih => simpa [send_progress, completePart] using ih

/-!  ## Per-monitor structural lemmas  -/

theorem conv_call_spec (m : ConvergenceMonitor) (h : History)
    (m' : ConvergenceMonitor) (ops : List BridgeOp)
    (hc : m.call h = Except.ok (m', ops)) :
    m'.rate = m.rate ∧ m'.problem = m.problem ∧ m'.message = m.message
    ∧ (∃ tup, m'.pop = m.pop ++ [tup])
    ∧ ((ops = [] ∧ m'.time = m.time)
        ∨ (0 < m.rate ∧ m.time + m.rate ≤ h.time ∧ m'.time = h.time
           ∧ ops = send_progress
               [("problem", PVal.o m.problem), ("message", PVal.s m.message),
                ("pop", PVal.a (ConvergenceMonitor.progress m'.pop))])) := by
  unfold ConvergenceMonitor.call at hc
  rcases hpv : h.population_values with _ | pop <;> rw [hpv] at hc
  · simp only [bind, Except.bind] at hc
    split at hc
    · rename_i hgate
      simp only [Except.ok.injEq, Prod.mk.injEq] at hc
      obtain ⟨hm, ho⟩ := hc
      subst hm; subst ho
      refine ⟨rfl, rfl, rfl, ⟨_, rfl⟩, Or.inr ⟨hgate.1, hgate.2, rfl, rfl⟩⟩
    · simp only [Except.ok.injEq, Prod.mk.injEq] at hc
      obtain ⟨hm, ho⟩ := hc
      subst hm
      exact ⟨rfl, rfl, rfl, ⟨_, rfl⟩, Or.inl ⟨ho.symm, rfl⟩⟩
  · by_cases hne : pop = []
    · simp [hne, bind, Except.bind] at hc
    · simp only [hne, ite_false, bind, Except.bind] at hc
      split at hc
      · rename_i hgate
        simp only [Except.ok.injEq, Prod.mk.injEq] at hc
        obtain ⟨hm, ho⟩ := hc
        subst hm; subst ho
        refine ⟨rfl, rfl, rfl, ⟨_, rfl⟩, Or.inr ⟨hgate.1, hgate.2, rfl, rfl⟩⟩
      · simp only [Except.ok.injEq, Prod.mk.injEq] at hc
        obtain ⟨hm, ho⟩ := hc
        subst hm
        exact ⟨rfl, rfl, rfl, ⟨_, rfl⟩, Or.inl ⟨ho.symm, rfl⟩⟩

theorem progressOps_conv_call {m : ConvergenceMonitor} {h : History}
    {m' : ConvergenceMonitor} {ops : List BridgeOp}
    (hc : m.call h = Except.ok (m', ops)) : ProgressOps ops := by
  rcases (conv_call_spec m h m' ops hc).2.2.2.2 with ⟨hnil, _⟩ | ⟨_, _, _, hops⟩
  · rw [hnil]; exact ProgressOps.nil
  · rw [hops]; exact progressOps_send _

theorem dream_call_spec (d : DreamMonitor) (h : History) (alloc : Nat) :
    (d.call h alloc).1.rate = d.rate
    ∧ (d.call h alloc).1.problem = d.problem
    ∧ (d.call h alloc).1.uncertainty_state = h.uncertainty_state
    ∧ ((d.call h alloc).2.1 = [] ∧ (d.call h alloc).1.time = d.time
        ∨ (0 < d.rate ∧ d.time + d.rate ≤ h.time
           ∧ (d.call h alloc).1.time = h.time ∧ (d.call h alloc).2.1 ≠ []))
    ∧ ProgressOps (d.call h alloc).2.1 := by
  unfold DreamMonitor.call
  rcases h.uncertainty_state with _ | u
  · exact ⟨rfl, rfl, rfl, Or.inl ⟨rfl, rfl⟩, ProgressOps.nil⟩
  · dsimp only
    split
    · rename_i hgate
      refine ⟨rfl, rfl, rfl, Or.inr ⟨hgate.1, hgate.2, rfl, by simp [send_progress, deepcopy]⟩,
        ?_⟩
      exact progressOps_send _
    · exact ⟨rfl, rfl, rfl, Or.inl ⟨rfl, rfl⟩, ProgressOps.nil⟩

theorem progressOps_gui_show_progress (m : GUIProgressMonitor) (h : History)
    (alloc : Nat) : ProgressOps (m.show_progress h alloc).1 := by
  unfold GUIProgressMonitor.show_progress
  exact progressOps_send _

theorem progressOps_gui_show_improvement (m : GUIProgressMonitor) (h : History)
    (alloc : Nat) : ProgressOps (m.show_improvement h alloc).1 := by
  unfold GUIProgressMonitor.show_improvement
  exact progressOps_send _

theorem progressOps_gui_call (m : GUIProgressMonitor) (h : History)
    (alloc : Nat) : ProgressOps (m.call h alloc).2.1 := by
  unfold GUIProgressMonitor.call
  dsimp only
  split <;> split <;>
    first
      | exact progressOps_append (progressOps_gui_show_improvement _ _ _)
          (progressOps_gui_show_progress _ _ _)
      | simpa using progressOps_append (progressOps_gui_show_improvement _ _ _)
          ProgressOps.nil
      | simpa using progressOps_append ProgressOps.nil
          (progressOps_gui_show_progress _ _ _)
      | exact ProgressOps.nil

theorem progressOps_conv_final (m : ConvergenceMonitor) :
    ProgressOps m.final := by
  unfold ConvergenceMonitor.final
  exact progressOps_send _

theorem progressOps_dream_final (d : DreamMonitor) (alloc : Nat) :
    ProgressOps (d.final alloc).1 := by
  unfold DreamMonitor.final
  rcases d.uncertainty_state with _ | u
  · exact ProgressOps.nil
  · exact progressOps_send _

/-!  ## Structural lemmas on the optimization loop and on `run`  -/

theorem runLoop_ops_progressOps (hs : List History) (st : LoopState)
    (hst : ProgressOps st.ops) : ProgressOps (runLoop st hs).1.ops := by
  induction hs generalizing st with
  | nil => exact hst
  | cons h rest ih =>
      have hg := progressOps_gui_call st.gui h st.alloc
      rcases hgc : st.gui.call h st.alloc with ⟨gui1, opsG, alloc1⟩
      rw [hgc] at hg
      rcases hcc : st.conv.call h with msg | ⟨conv1, opsC⟩
      · simp only [runLoop, hgc, hcc]
        exact progressOps_append hst hg
      · have hc := progressOps_conv_call hcc
        have hd := (dream_call_spec st.dream h alloc1).2.2.2.2
        rcases hdc : st.dream.call h alloc1 with ⟨dream1, opsD, alloc2⟩
        rw [hdc] at hd
        simp only [runLoop, hgc, hcc, hdc]
        exact ih _ (progressOps_append (progressOps_append
          (progressOps_append hst hg) hc) hd)

theorem sendChunks_run_ops (t : FitThread) (steps : List History)
    (outcome : FitOutcome) (alloc : Nat) :
    SendChunks (t.run steps outcome alloc).ops := by
  have hloop := runLoop_ops_progressOps steps
    ⟨mkGUIProgressMonitor t.problem none none,
     mkConvergenceMonitor t.problem "convergence_update" t.convergence_update,
     mkDreamMonitor t.problem "uncertainty_update" t.fitclass t.uncertainty_update,
     alloc + 1, []⟩ ProgressOps.nil
  rcases hrl : runLoop ⟨mkGUIProgressMonitor t.problem none none,
      mkConvergenceMonitor t.problem "convergence_update" t.convergence_update,
      mkDreamMonitor t.problem "uncertainty_update" t.fitclass t.uncertainty_update,
      alloc + 1, []⟩ steps with ⟨st, err⟩
  rw [hrl] at hloop
  rcases err with _ | e
  · rcases outcome with ⟨x, fx, report⟩ | e
    · have hd := progressOps_dream_final st.dream st.alloc
      rcases hdf : st.dream.final st.alloc with ⟨opsD, a2⟩
      rw [hdf] at hd
      simp only [FitThread.run, deepcopy, hrl, hdf]
      exact sendChunks_append (sendChunks_append (sendChunks_append
        hloop.sendChunks (progressOps_conv_final st.conv).sendChunks)
        hd.sendChunks) (sendChunks_send_complete _)
    · simp only [FitThread.run, deepcopy, hrl]
      exact hloop.sendChunks
  · simp only [FitThread.run, deepcopy, hrl]
    exact hloop.sendChunks

/-!  ## Claim theorems  -/

/-- C8: every publication of an event — `send_progress` for progress-channel
events, `send_complete` for the completion event — first enqueues the event
on its queue and then explicitly wakes the consumer's event loop, in that
order: in the whole bridge-operation trace of any `FitThread.run`, every
enqueue is immediately followed by the wake of the corresponding queue. -/
theorem run_enqueue_then_wake (t : FitThread) (steps : List History)
    (outcome : FitOutcome) (alloc : Nat) :
    wakesFollowEnqueues ((t.run steps outcome alloc).ops) :=
  wakesFollowEnqueues_of_sendChunks (sendChunks_run_ops t steps outcome alloc)

/-- C2: for a non-empty observed population, the tuple appended by
`ConvergenceMonitor.__call__` is
`(best, s[0], s[⌊0.2n⌋], s[⌊0.5n⌋], s[n-1-⌊0.2n⌋], s[n-1])` for the
ascending sort `s` of the population (characterized abstractly as any sorted
permutation of it). -/
theorem convergence_call_quantiles (m : ConvergenceMonitor) (h : History)
    (pop s : List ℚ) (hp : h.population_values = some pop) (hne : pop ≠ [])
    (hs : List.Sorted (· ≤ ·) s) (hperm : pop.Perm s) :
    Except.map (fun r => r.1.pop) (m.call h)
      = Except.ok (m.pop ++
          [[h.value, s.getD 0 0, s.getD (pop.length / 5) 0,
            s.getD (pop.length / 2) 0,
            s.getD (pop.length - 1 - pop.length / 5) 0,
            s.getD (pop.length - 1) 0]]) := by
  have hsort : pop.insertionSort (· ≤ ·) = s :=
    List.eq_of_perm_of_sorted ((List.perm_insertionSort _ pop).trans hperm)
      (List.sorted_insertionSort _ pop) hs
  unfold ConvergenceMonitor.call
  rw [hp]
  simp only [hne, ite_false, bind, Except.bind, hsort]
  split <;> rfl

/-- C2 witness: population `[5,3,9,1,7]` with best value 42 appends the
tuple `(42,1,3,5,7,9)`. -/
theorem convergence_call_quantiles_witness :
    Except.map (fun r => r.1.pop) (convC2.call histC2)
      = Except.ok [[42, 1, 3, 5, 7, 9]] := by
  have := convergence_call_quantiles convC2 histC2 [5, 3, 9, 1, 7]
    [1, 3, 5, 7, 9] rfl (by decide) (by decide) (by decide)
  simpa using this

/-- C10: `ConvergenceMonitor.progress()` returns the empty 0-by-1 float
array when no samples have been recorded, and otherwise the array of the
accumulated tuples; and `ConvergenceMonitor.final()` always publishes a
`convergence_update` event whose `pop` payload is that array — in
particular a freshly constructed monitor that never observed an iteration
still publishes the empty 0-by-1 array at finalization. -/
theorem convergence_progress_wellformed (st : ConvergenceMonitor)
    (pop : List (List ℚ)) (hne : pop ≠ []) (p : Obj) (msg : String) (r : ℚ) :
    (ConvergenceMonitor.progress []).shape = (0, 1)
    ∧ (ConvergenceMonitor.progress pop).rows = pop
    ∧ st.final = send_progress
        [("problem", PVal.o st.problem), ("message", PVal.s st.message),
         ("pop", PVal.a (ConvergenceMonitor.progress st.pop))]
    ∧ (mkConvergenceMonitor p msg r).final = send_progress
        [("problem", PVal.o p), ("message", PVal.s msg),
         ("pop", PVal.a ⟨[], 1⟩)] := by
  refine ⟨rfl, ?_, rfl, rfl⟩
  rw [ConvergenceMonitor.progress, if_neg (by simpa using hne)]

/-- C10 witness at a monitor with two accumulated tuples. -/
theorem convergence_progress_wellformed_witness :
    (ConvergenceMonitor.progress []).shape = (0, 1)
    ∧ (ConvergenceMonitor.progress [[7], [6]]).rows = [[7], [6]]
    ∧ convC10.final = send_progress
        [("problem", PVal.o convC10.problem),
         ("message", PVal.s convC10.message),
         ("pop", PVal.a (ConvergenceMonitor.progress convC10.pop))] :=
  ⟨(convergence_progress_wellformed convC10 [[7], [6]] (by decide) ⟨0, []⟩ "m" 5).1,
   (convergence_progress_wellformed convC10 [[7], [6]] (by decide) ⟨0, []⟩ "m" 5).2.1,
   (convergence_progress_wellformed convC10 [[7], [6]] (by decide) ⟨0, []⟩ "m" 5).2.2.1⟩

/-- C4: every `convergence_update` event emitted by
`ConvergenceMonitor.__call__` carries as `pop` payload the entire
accumulated sequence (the state after the append), as does the event
emitted by `final()`; and when the observed history has no
`population_values` the monitor appends the one-element tuple `(best,)`. -/
theorem convergence_emits_accumulated (m m' : ConvergenceMonitor)
    (h : History) (ops : List BridgeOp)
    (hc : m.call h = Except.ok (m', ops)) :
    (∀ e, BridgeOp.enqProgress e ∈ ops →
        e.lookup "pop" = some (PVal.a (ConvergenceMonitor.progress m'.pop)))
    ∧ (h.population_values = none → m'.pop = m.pop ++ [[h.value]])
    ∧ (∀ e, BridgeOp.enqProgress e ∈ m.final →
        e.lookup "pop" = some (PVal.a (ConvergenceMonitor.progress m.pop))) := by
  obtain ⟨-, -, -, -, hops⟩ := conv_call_spec m h m' ops hc
  refine ⟨?_, ?_, ?_⟩
  · intro e he
    rcases hops with ⟨hnil, -⟩ | ⟨-, -, -, hsend⟩
    · rw [hnil] at he; cases he
    · rw [hsend] at he
      simp only [send_progress, List.mem_cons, List.not_mem_nil, or_false,
        reduceCtorEq, BridgeOp.enqProgress.injEq] at he
      subst he
      rfl
  · intro hnone
    unfold ConvergenceMonitor.call at hc
    rw [hnone] at hc
    simp only [bind, Except.bind] at hc
    split at hc <;>
      simp only [Except.ok.injEq, Prod.mk.injEq] at hc <;>
      rw [← hc.1]
  · intro e he
    unfold ConvergenceMonitor.final ConvergenceMonitor.evt at he
    simp only [send_progress, List.mem_cons, List.not_mem_nil, or_false,
      reduceCtorEq, BridgeOp.enqProgress.injEq] at he
    subst he
    rfl

/-- C4 witness: a monitor with one prior tuple emits (rate gate firing) the
two-row accumulated sequence, not only the new tuple. -/
theorem convergence_emits_accumulated_witness :
    List.lookup "pop" convC4'.evt
      = some (PVal.a (ConvergenceMonitor.progress convC4'.pop)) :=
  (convergence_emits_accumulated convC4 convC4' histC4
      (send_progress convC4'.evt)
      (by
        norm_num [ConvergenceMonitor.call, convC4, convC4', histC4,
          ConvergenceMonitor.evt, ConvergenceMonitor.progress,
          List.insertionSort, List.orderedInsert, send_progress,
          bind, Except.bind]
        exact fun hx => absurd hx (by simp))).1
    convC4'.evt (by simp [send_progress])

/-- C5 counterexample: the claim says `DreamMonitor.final()` emits
`uncertainty_final` whenever *any* uncertainty state was ever captured
during the job.  Concretely: after observing `histC5a` the monitor has
captured state `some ⟨2,[3]⟩`, but a later observation of `histC5b` (whose
history lacks the attribute) overwrites it with `None`, and `final()` then
emits nothing — falsifying the claim at this input. -/
theorem dream_final_forgets_captured_state :
    (dreamC5.call histC5a 10).1.uncertainty_state = some ⟨2, [3]⟩
    ∧ ((((dreamC5.call histC5a 10).1.call histC5b 10).1.final 10).1 = []) := by
  constructor
  · rfl
  · rfl

/-- C5 amended: `DreamMonitor.final()` emits exactly one `uncertainty_final`
event carrying a deep copy of the uncertainty state observed by the *last*
`__call__` (each call overwrites the stored state with
`getattr(history, 'uncertainty_state', None)`); it emits nothing when the
stored state is `None`; and a call observing a history without uncertainty
state stores `None` and emits nothing — so a job whose algorithm never
produces uncertainty state gets no uncertainty events at all. -/
theorem dream_final_emits_last_state (d : DreamMonitor) (u : Obj)
    (alloc : Nat) (h : History) :
    (d.uncertainty_state = some u →
        (d.final alloc).1 = send_progress
          [("problem", PVal.o d.problem),
           ("message", PVal.s "uncertainty_final"),
           ("uncertainty_state", PVal.o ⟨alloc, u.data⟩)])
    ∧ (d.uncertainty_state = none → (d.final alloc).1 = [])
    ∧ (h.uncertainty_state = none →
        (d.call h alloc).1.uncertainty_state = none
        ∧ (d.call h alloc).2.1 = []) := by
  refine ⟨?_, ?_, ?_⟩
  · intro hu
    simp only [DreamMonitor.final, hu, deepcopy]
  · intro hu
    simp only [DreamMonitor.final, hu]
  · intro hu
    constructor <;> simp only [DreamMonitor.call, hu]

/-- C5 amended witness: a monitor holding state `⟨2,[3]⟩` finalizes with an
`uncertainty_final` event carrying a fresh copy of it, and a call observing
a history without uncertainty state emits nothing. -/
theorem dream_final_emits_last_state_witness :
    (dreamC5w.final 10).1 = send_progress
        [("problem", PVal.o dreamC5w.problem),
         ("message", PVal.s "uncertainty_final"),
         ("uncertainty_state", PVal.o ⟨10, [3]⟩)]
    ∧ (dreamC5w.call histC5b 10).2.1 = [] :=
  ⟨by
     have := (dream_final_emits_last_state dreamC5w ⟨2, [3]⟩ 10 histC5b).1 rfl
     simpa using this,
   ((dream_final_emits_last_state dreamC5w ⟨2, [3]⟩ 10 histC5b).2.2 rfl).2⟩

/-- C1: the claim (and spec §7) requires that an exception raised inside the
optimization loop be caught at the worker-thread boundary and converted into
a terminal event.  `FitThread.run` has no `try`/`except` around
`driver.fit()`: evaluated on a job whose driver raises after one healthy
iteration, the run publishes progress events but **no** `complete` event and
runs **no** `final()` calls — the completion channel stays empty and the
consumer waits forever. -/
theorem run_uncaught_exception_drops_terminal :
    (fitT1.run [histC1] (FitOutcome.raises "RuntimeError") 100).error
        = some "RuntimeError"
    ∧ (fitT1.run [histC1] (FitOutcome.raises "RuntimeError") 100).completeEvents = []
    ∧ (fitT1.run [histC1] (FitOutcome.raises "RuntimeError") 100).finalized = []
    ∧ (fitT1.run [histC1] (FitOutcome.raises "RuntimeError") 100).progressEvents ≠ [] := by
  refine ⟨?_, ?_, ?_, ?_⟩ <;>
    norm_num [FitThread.run, runLoop, RunResult.completeEvents,
      RunResult.progressEvents, fitT1, histC1, deepcopy,
      mkGUIProgressMonitor, mkConvergenceMonitor, mkDreamMonitor,
      GUIProgressMonitor.call, GUIProgressMonitor.show_improvement,
      GUIProgressMonitor.show_progress, addZeroCopy, orDelay, PROGRESS_DELAY,
      IMPROVEMENT_DELAY, nllf_scale, format_uncertainty,
      ConvergenceMonitor.call, ConvergenceMonitor.evt,
      ConvergenceMonitor.progress, DreamMonitor.call, send_progress,
      send_complete, completePart, progressPart, List.insertionSort,
      List.orderedInsert, bind, Except.bind, List.cons_ne_nil, ne_eq,
      reduceCtorEq] <;> simp

/-- C3: `FitThread.run` hands the algorithm driver a deep copy of the
caller's problem (same contents, distinct object), never the original —
so the caller's live instance is never mutated by the fit — while the
published `complete` event carries a reference to the *original* problem
object together with the best point, best value and the captured report. -/
theorem run_isolates_problem (t : FitThread) (steps : List History)
    (x : List ℚ) (fx : ℚ) (report : String) (alloc : Nat)
    (hfresh : t.problem.ref < alloc) :
    ((t.run steps (FitOutcome.finishes x fx report) alloc).driverProblem.data
        = t.problem.data
      ∧ (t.run steps (FitOutcome.finishes x fx report) alloc).driverProblem.ref
        ≠ t.problem.ref)
    ∧ ∀ e ∈ (t.run steps (FitOutcome.finishes x fx report) alloc).completeEvents,
        e.lookup "problem" = some (PVal.o t.problem)
        ∧ e.lookup "point" = some (PVal.xs x)
        ∧ e.lookup "value" = some (PVal.q fx)
        ∧ e.lookup "info" = some (PVal.s report) := by
  have hloop := runLoop_ops_progressOps steps
    ⟨mkGUIProgressMonitor t.problem none none,
     mkConvergenceMonitor t.problem "convergence_update" t.convergence_update,
     mkDreamMonitor t.problem "uncertainty_update" t.fitclass t.uncertainty_update,
     alloc + 1, []⟩ ProgressOps.nil
  rcases hrl : runLoop ⟨mkGUIProgressMonitor t.problem none none,
      mkConvergenceMonitor t.problem "convergence_update" t.convergence_update,
      mkDreamMonitor t.problem "uncertainty_update" t.fitclass t.uncertainty_update,
      alloc + 1, []⟩ steps with ⟨st, err⟩
  rw [hrl] at hloop
  rcases err with _ | e
  · have hd := progressOps_dream_final st.dream st.alloc
    rcases hdf : st.dream.final st.alloc with ⟨opsD, a2⟩
    rw [hdf] at hd
    simp only [FitThread.run, deepcopy, hrl, hdf, RunResult.completeEvents]
    refine ⟨⟨by trivial, fun hcontra => absurd hcontra.symm (Nat.ne_of_lt hfresh)⟩, ?_⟩
    rw [List.filterMap_append, List.filterMap_append, List.filterMap_append,
      filterMap_completePart_of_progressOps hloop,
      filterMap_completePart_of_progressOps (progressOps_conv_final st.conv),
      filterMap_completePart_of_progressOps hd]
    intro e he
    simp only [List.nil_append, send_complete, completePart,
      List.filterMap_cons, List.filterMap_nil, List.mem_singleton] at he
    subst he
    exact ⟨rfl, rfl, rfl, rfl⟩
  · simp only [FitThread.run, deepcopy, hrl, RunResult.completeEvents]
    refine ⟨⟨by trivial, fun hcontra => absurd hcontra.symm (Nat.ne_of_lt hfresh)⟩, ?_⟩
    rw [filterMap_completePart_of_progressOps hloop]
    intro e he
    cases he

/-- C3 witness: a zero-iteration run starting from allocation counter 1. -/
theorem run_isolates_problem_witness :
    (runC3.driverProblem.data = fitT3.problem.data
      ∧ runC3.driverProblem.ref ≠ fitT3.problem.ref)
    ∧ (evtC3.lookup "problem" = some (PVal.o fitT3.problem)
      ∧ evtC3.lookup "point" = some (PVal.xs [1])
      ∧ evtC3.lookup "value" = some (PVal.q 2)
      ∧ evtC3.lookup "info" = some (PVal.s "done")) :=
  ⟨(run_isolates_problem fitT3 [] [1] 2 "done" 1 (by decide)).1,
   (run_isolates_problem fitT3 [] [1] 2 "done" 1 (by decide)).2 evtC3
     (by simp [runC3, RunResult.completeEvents, FitThread.run, runLoop,
       deepcopy, fitT3, send_complete, completePart, evtC3])⟩

/-- Invariant for the convergence-monitor cadence: along any trace, the
emission times form a chain with gaps of at least the rate, and every
emission time is at least one rate beyond the monitor's gate time. -/
theorem convEmitTimes_spec (hs : List History) (m : ConvergenceMonitor) :
    List.Chain' (fun a b => a + m.rate ≤ b) (convEmitTimes m hs)
    ∧ ∀ t ∈ convEmitTimes m hs, m.time + m.rate ≤ t := by
  induction hs generalizing m with
  | nil => exact ⟨List.chain'_nil, by simp [convEmitTimes]⟩
  | cons h rest ih =>
      rcases hc : m.call h with msg | ⟨m', ops⟩
      · refine ⟨?_, ?_⟩ <;> simp [convEmitTimes, hc]
      · obtain ⟨hrate, -, -, -, hgate⟩ := conv_call_spec m h m' ops hc
        have ihm := ih m'
        rw [hrate] at ihm
        rcases hgate with ⟨hnil, htime⟩ | ⟨hpos, hle, htime, hsend⟩
        · have hrw : convEmitTimes m (h :: rest) = convEmitTimes m' rest := by
            simp [convEmitTimes, hc, hnil]
          rw [hrw]
          refine ⟨ihm.1, fun t ht => ?_⟩
          have := ihm.2 t ht
          rwa [htime] at this
        · have hnonnil : ops ≠ [] := by rw [hsend]; simp [send_progress]
          have hrw : convEmitTimes m (h :: rest)
              = h.time :: convEmitTimes m' rest := by
            simp [convEmitTimes, hc, hnonnil]
          rw [hrw]
          constructor
          · rw [List.chain'_cons']
            refine ⟨fun y hy => ?_, ihm.1⟩
            have := ihm.2 y (List.mem_of_mem_head? hy)
            rwa [htime] at this
          · intro t ht
            rcases List.mem_cons.mp ht with hteq | htl
            · rw [hteq]; exact hle
            · have h1 := ihm.2 t htl
              rw [htime] at h1
              have h2 : h.time ≤ h.time + m.rate := by linarith
              exact le_trans hle (le_trans h2 h1)

/-- Invariant for the dream-monitor cadence, as for `convEmitTimes_spec`. -/
theorem dreamEmitTimes_spec (hs : List History) (d : DreamMonitor)
    (alloc : Nat) :
    List.Chain' (fun a b => a + d.rate ≤ b) (dreamEmitTimes d alloc hs)
    ∧ ∀ t ∈ dreamEmitTimes d alloc hs, d.time + d.rate ≤ t := by
  induction hs generalizing d alloc with
  | nil => exact ⟨List.chain'_nil, by simp [dreamEmitTimes]⟩
  | cons h rest ih =>
      obtain ⟨hrate, -, -, hgate, -⟩ := dream_call_spec d h alloc
      rcases hdc : d.call h alloc with ⟨d', ops, alloc'⟩
      rw [hdc] at hrate hgate
      dsimp only at hrate hgate
      have ihm := ih d' alloc'
      rw [hrate] at ihm
      rcases hgate with ⟨hnil, htime⟩ | ⟨hpos, hle, htime, hnonnil⟩
      · have hrw : dreamEmitTimes d alloc (h :: rest)
            = dreamEmitTimes d' alloc' rest := by
          simp [dreamEmitTimes, hdc, hnil]
        rw [hrw]
        refine ⟨ihm.1, fun t ht => ?_⟩
        have := ihm.2 t ht
        rwa [htime] at this
      · have hrw : dreamEmitTimes d alloc (h :: rest)
            = h.time :: dreamEmitTimes d' alloc' rest := by
          simp [dreamEmitTimes, hdc, hnonnil]
        rw [hrw]
        constructor
        · rw [List.chain'_cons']
          refine ⟨fun y hy => ?_, ihm.1⟩
          have := ihm.2 y (List.mem_of_mem_head? hy)
          rwa [htime] at this
        · intro t ht
          rcases List.mem_cons.mp ht with hteq | htl
          · rw [hteq]; exact hle
          · have h1 := ihm.2 t htl
            rw [htime] at h1
            have h2 : h.time ≤ h.time + d.rate := by linarith
            exact le_trans hle (le_trans h2 h1)

/-- C6: with a positive configured rate, successive emissions of
`ConvergenceMonitor.__call__` and of `DreamMonitor.__call__` are separated
by at least the rate in elapsed trajectory time (`history.time[0]`): the
emission-time sequences are chains with pairwise gaps of at least the
rate. -/
theorem monitors_respect_cadence (m : ConvergenceMonitor)
    (hs1 : List History) (d : DreamMonitor) (hs2 : List History)
    (alloc : Nat) (hm : 0 < m.rate) (hd : 0 < d.rate) :
    List.Chain' (fun a b => a + m.rate ≤ b) (convEmitTimes m hs1)
    ∧ List.Chain' (fun a b => a + d.rate ≤ b) (dreamEmitTimes d alloc hs2) :=
  ⟨(convEmitTimes_spec hs1 m).1, (dreamEmitTimes_spec hs2 d alloc).1⟩

/-- C6 witness: rate-1 monitors over a three-observation trace at times 1,
3/2, 2. -/
theorem monitors_respect_cadence_witness :
    List.Chain' (fun a b => a + convC6.rate ≤ b) (convEmitTimes convC6 traceC6)
    ∧ List.Chain' (fun a b => a + dreamC6.rate ≤ b)
        (dreamEmitTimes dreamC6 0 traceC6) :=
  monitors_respect_cadence convC6 traceC6 dreamC6 traceC6 0
    (by norm_num [convC6, mkConvergenceMonitor])
    (by norm_num [dreamC6, mkDreamMonitor])

/-- C7 counterexample: in the 5-iteration, convergence-cadence-0 scenario the
single `complete` event has **no** `step` field at all (its keys are
`message`, `problem`, `point`, `value`, `info`), so it cannot carry
`step=5` as the claim states. -/
theorem run_complete_has_no_step :
    runC7.completeEvents.map (fun e => e.lookup "step") = [none] := by
  norm_num [runC7, stepsC7, fitT7, FitThread.run, runLoop,
    RunResult.completeEvents, deepcopy, mkGUIProgressMonitor,
    mkConvergenceMonitor, mkDreamMonitor, GUIProgressMonitor.call,
    GUIProgressMonitor.show_improvement, GUIProgressMonitor.show_progress,
    addZeroCopy, orDelay, PROGRESS_DELAY, IMPROVEMENT_DELAY, nllf_scale,
    format_uncertainty, ConvergenceMonitor.call, ConvergenceMonitor.evt,
    ConvergenceMonitor.progress, ConvergenceMonitor.final, DreamMonitor.call,
    DreamMonitor.final, send_progress, send_complete, completePart,
    List.insertionSort, List.orderedInsert, bind, Except.bind,
    List.cons_ne_nil, ne_eq, reduceCtorEq] <;> decide

/-- C7 amended: in the 5-iteration scenario with convergence cadence 0, the
convergence monitor emits zero `convergence_update` events during the
optimization loop (its one `convergence_update` comes from `final()` after
the loop), and exactly one `complete` event is delivered; that event
carries the final value and point but no `step` field. -/
theorem run_cadence_zero_scenario :
    eventsWithMessage "convergence_update" (loopC7.1.ops.filterMap progressPart) = []
    ∧ runC7.completeEvents.length = 1
    ∧ runC7.completeEvents.map (fun e => e.lookup "step") = [none]
    ∧ runC7.completeEvents.map (fun e => e.lookup "value") = [some (PVal.q 6)]
    ∧ runC7.completeEvents.map (fun e => e.lookup "point") = [some (PVal.xs [1])] := by
  have himp : loopC7.1.ops.filterMap progressPart
      = [[("problem", PVal.o ⟨0, [1]⟩), ("message", PVal.s "improvement"),
          ("step", PVal.n 1), ("value", PVal.q 10), ("point", PVal.o ⟨101, [1]⟩)],
         [("problem", PVal.o ⟨0, [1]⟩), ("message", PVal.s "improvement"),
          ("step", PVal.n 2), ("value", PVal.q 9), ("point", PVal.o ⟨102, [1]⟩)],
         [("problem", PVal.o ⟨0, [1]⟩), ("message", PVal.s "improvement"),
          ("step", PVal.n 3), ("value", PVal.q 8), ("point", PVal.o ⟨103, [1]⟩)],
         [("problem", PVal.o ⟨0, [1]⟩), ("message", PVal.s "improvement"),
          ("step", PVal.n 4), ("value", PVal.q 7), ("point", PVal.o ⟨104, [1]⟩)],
         [("problem", PVal.o ⟨0, [1]⟩), ("message", PVal.s "improvement"),
          ("step", PVal.n 5), ("value", PVal.q 6), ("point", PVal.o ⟨105, [1]⟩)]] := by
    norm_num [loopC7, stepsC7, runLoop, deepcopy, mkGUIProgressMonitor,
      mkConvergenceMonitor, mkDreamMonitor, GUIProgressMonitor.call,
      GUIProgressMonitor.show_improvement, GUIProgressMonitor.show_progress,
      addZeroCopy, orDelay, PROGRESS_DELAY, IMPROVEMENT_DELAY, nllf_scale,
      format_uncertainty, ConvergenceMonitor.call, ConvergenceMonitor.evt,
      ConvergenceMonitor.progress, DreamMonitor.call, send_progress,
      progressPart, List.insertionSort, List.orderedInsert, bind,
      Except.bind, List.cons_ne_nil, ne_eq, reduceCtorEq] <;> decide
  have hcomp : runC7.completeEvents
      = [[("message", PVal.s "complete"), ("problem", PVal.o ⟨0, [1]⟩),
          ("point", PVal.xs [1]), ("value", PVal.q 6),
          ("info", PVal.s "report")]] := by
    norm_num [runC7, stepsC7, fitT7, FitThread.run, runLoop,
      RunResult.completeEvents, deepcopy, mkGUIProgressMonitor,
      mkConvergenceMonitor, mkDreamMonitor, GUIProgressMonitor.call,
      GUIProgressMonitor.show_improvement, GUIProgressMonitor.show_progress,
      addZeroCopy, orDelay, PROGRESS_DELAY, IMPROVEMENT_DELAY, nllf_scale,
      format_uncertainty, ConvergenceMonitor.call, ConvergenceMonitor.evt,
      ConvergenceMonitor.progress, ConvergenceMonitor.final,
      DreamMonitor.call, DreamMonitor.final, send_progress, send_complete,
      completePart, List.insertionSort, List.orderedInsert, bind,
      Except.bind, List.cons_ne_nil, ne_eq, reduceCtorEq] <;> decide
  refine ⟨?_, ?_, ?_, ?_, ?_⟩
  · rw [himp]; decide
  · rw [hcomp]; decide
  · rw [hcomp]; decide
  · rw [hcomp]; decide
  · rw [hcomp]; decide

/-- C9 counterexample: the `improvement` event published by
`GUIProgressMonitor.show_improvement` carries a `problem` field in addition
to the message tag, `step`, `value` and `point` — so its fields are not
"exactly step, value, point". -/
theorem improvement_event_extra_problem_field :
    (guiC9.show_improvement histC9 10).1 = send_progress evtC9
    ∧ "problem" ∈ eventKeys evtC9
    ∧ "problem" ∉ ["message", "step", "value", "point"] :=
  ⟨by rfl, by decide, by decide⟩

/-- C9 amended: every `improvement` event carries exactly the fields
`problem`, `message`, `step`, `value`, `point` (in dict insertion order),
where `point` is a fresh copy (`history.point[0] + 0`) of the current point
— same contents, distinct buffer — not the live buffer itself. -/
theorem improvement_event_fields (m : GUIProgressMonitor) (h : History)
    (alloc : Nat) (hfresh : h.point.ref < alloc) :
    (m.show_improvement h alloc).1
      = send_progress
          [("problem", PVal.o m.problem), ("message", PVal.s "improvement"),
           ("step", PVal.n h.step), ("value", PVal.q h.value),
           ("point", PVal.o ⟨alloc, h.point.data⟩)]
    ∧ (⟨alloc, h.point.data⟩ : Obj).ref ≠ h.point.ref :=
  ⟨rfl, Ne.symm (Nat.ne_of_lt hfresh)⟩

/-- C9 amended witness at the concrete monitor `guiC9` and history
`histC9`. -/
theorem improvement_event_fields_witness :
    (guiC9.show_improvement histC9 10).1
      = send_progress
          [("problem", PVal.o guiC9.problem),
           ("message", PVal.s "improvement"),
           ("step", PVal.n histC9.step), ("value", PVal.q histC9.value),
           ("point", PVal.o ⟨10, histC9.point.data⟩)]
    ∧ (⟨10, histC9.point.data⟩ : Obj).ref ≠ histC9.point.ref :=
  improvement_event_fields guiC9 histC9 10 (by decide)
